import Mathlib

/-!
Shallow embedding of the audio-processor core of the Rian-Audio-Editor2
repository (`src/audio_processor/src/audio_processor/mod.rs`), together with
theorems settling the frozen claims about it.

Modelling conventions:
* `f32` samples and `f64` durations are modelled as `ℚ`: every operation the
  claims mention (absolute value, maximum, division of exact integers,
  equality between a stored value and a returned copy) is exact.
* Machine integers (`u32` sample rate, `u64` mtime/size, `usize` lengths) are
  modelled as `Nat`, with explicit `% 2 ^ 64` where Rust would truncate
  (`u64::to_be_bytes`).
* The external symphonia decoder is an environment: an `AudioSource` records,
  for one `analyze_audio` call, the file metadata and what each external
  fallible step would return.  `format.next_packet()` errors (including
  end-of-stream) terminate the Rust `while let Ok(...)` loop normally, so the
  packet list of an `AudioSource` is exactly the sequence of packets delivered
  before the loop stops, each tagged with its decode outcome.
* The two `Mutex<HashMap<..>>` caches are modelled as association lists with
  first-match lookup and prepend insert (same observable map semantics as
  `HashMap::insert`/`get` under the sequential executions the claims quantify
  over).
-/

/-! ## 32-bit word arithmetic for SHA-256 (the `sha2` crate's `Sha256`) -/

/-- Truncate to a 32-bit word. -/
def w32 (n : Nat) : Nat := n % 4294967296

/-- Right rotation of a 32-bit word. -/
def spinRight (n x : Nat) : Nat := w32 ((x >>> n) ||| (x <<< (32 - n)))

/-- SHA-256 `Ch` function. -/
def shaCh (x y z : Nat) : Nat := (x &&& y) ^^^ ((x ^^^ 4294967295) &&& z)

/-- SHA-256 `Maj` function. -/
def shaMaj (x y z : Nat) : Nat := (x &&& y) ^^^ (x &&& z) ^^^ (y &&& z)

/-- SHA-256 big sigma 0. -/
def sumSigA (x : Nat) : Nat := spinRight 2 x ^^^ spinRight 13 x ^^^ spinRight 22 x

/-- SHA-256 big sigma 1. -/
def sumSigE (x : Nat) : Nat := spinRight 6 x ^^^ spinRight 11 x ^^^ spinRight 25 x

/-- SHA-256 small sigma 0. -/
def schedSig0 (x : Nat) : Nat := spinRight 7 x ^^^ spinRight 18 x ^^^ (x >>> 3)

/-- SHA-256 small sigma 1. -/
def schedSig1 (x : Nat) : Nat := spinRight 17 x ^^^ spinRight 19 x ^^^ (x >>> 10)

/-- The 64 SHA-256 round constants. -/
def K256 : List Nat :=
  [1116352408, 1899447441, 3049323471, 3921009573, 961987163,
   1508970993, 2453635748, 2870763221, 3624381080, 310598401,
   607225278, 1426881987, 1925078388, 2162078206, 2614888103,
   3248222580, 3835390401, 4022224774, 264347078, 604807628,
   770255983, 1249150122, 1555081692, 1996064986, 2554220882,
   2821834349, 2952996808, 3210313671, 3336571891, 3584528711,
   113926993, 338241895, 666307205, 773529912, 1294757372,
   1396182291, 1695183700, 1986661051, 2177026350, 2456956037,
   2730485921, 2820302411, 3259730800, 3345764771, 3516065817,
   3600352804, 4094571909, 275423344, 430227734, 506948616,
   659060556, 883997877, 958139571, 1322822218, 1537002063,
   1747873779, 1955562222, 2024104815, 2227730452, 2361852424,
   2428436474, 2756734187, 3204031479, 3329325298]

/-- The SHA-256 initial hash value. -/
def H256 : List Nat :=
  [1779033703, 3144134277, 1013904242, 2773480762, 1359893119,
   2600822924, 528734635, 1541459225]

/-- Group a byte list into big-endian 32-bit words (4 bytes per word). -/
def bytesToWords : List Nat → List Nat
  | b0 :: b1 :: b2 :: b3 :: rest =>
      (b0 * 16777216 + b1 * 65536 + b2 * 256 + b3) :: bytesToWords rest
  | _ => []

/-- Big-endian bytes of a 32-bit word. -/
def wordToBytes (w : Nat) : List Nat :=
  [w / 16777216 % 256, w / 65536 % 256, w / 256 % 256, w % 256]

/-- Big-endian bytes of a 64-bit integer (`u64::to_be_bytes`). -/
def u64ToBeBytes (n : Nat) : List Nat :=
  let m := n % 18446744073709551616
  [m / 72057594037927936 % 256, m / 281474976710656 % 256,
   m / 1099511627776 % 256, m / 4294967296 % 256,
   m / 16777216 % 256, m / 65536 % 256, m / 256 % 256, m % 256]

/-- Extend a 16-word message schedule by `k` further words. -/
def extendSchedule (ws : List Nat) : Nat → List Nat
  | 0 => ws
  | k + 1 =>
      let i := ws.length
      extendSchedule
        (ws ++ [w32 (schedSig1 (ws.getD (i - 2) 0) + ws.getD (i - 7) 0 +
                     schedSig0 (ws.getD (i - 15) 0) + ws.getD (i - 16) 0)]) k

/-- Working state of one SHA-256 compression: the eight 32-bit registers. -/
structure ShaRegs where
  a : Nat
  b : Nat
  c : Nat
  d : Nat
  e : Nat
  f : Nat
  g : Nat
  h : Nat
deriving DecidableEq, Repr

/-- One SHA-256 round with round constant `kc` and schedule word `wc`. -/
def shaRound (st : ShaRegs) (kc wc : Nat) : ShaRegs :=
  let t1 := w32 (st.h + sumSigE st.e + shaCh st.e st.f st.g + kc + wc)
  let t2 := w32 (sumSigA st.a + shaMaj st.a st.b st.c)
  ⟨w32 (t1 + t2), st.a, st.b, st.c, w32 (st.d + t1), st.e, st.f, st.g⟩

/-- Compress one 64-byte block into the running 8-word hash value. -/
def compressBlock (hv : List Nat) (block : List Nat) : List Nat :=
  let ws := extendSchedule (bytesToWords block) 48
  let st0 : ShaRegs :=
    ⟨hv.getD 0 0, hv.getD 1 0, hv.getD 2 0, hv.getD 3 0,
     hv.getD 4 0, hv.getD 5 0, hv.getD 6 0, hv.getD 7 0⟩
  let fin := (K256.zip ws).foldl (fun st kw => shaRound st kw.1 kw.2) st0
  [w32 (hv.getD 0 0 + fin.a), w32 (hv.getD 1 0 + fin.b),
   w32 (hv.getD 2 0 + fin.c), w32 (hv.getD 3 0 + fin.d),
   w32 (hv.getD 4 0 + fin.e), w32 (hv.getD 5 0 + fin.f),
   w32 (hv.getD 6 0 + fin.g), w32 (hv.getD 7 0 + fin.h)]

/-- Fuel-driven worker for `chunksList`. -/
def chunksListAux (c : Nat) : Nat → List α → List (List α)
  | _, [] => []
  | 0, _ :: _ => []
  | fuel + 1, x :: xs =>
      ((x :: xs).take c) :: chunksListAux c fuel ((x :: xs).drop c)

/-- Split a list into consecutive chunks of size `c`, the last possibly
shorter — the behaviour of Rust's `slice::chunks(c)` for `c > 0`.  Rust
panics on `chunks(0)`; the embedding returns `[]` there and every theorem
using a chunk size derived from a sample rate assumes `sample_rate ≥ 50` so
that the code's `sample_rate / 50` chunk size is positive.  The fuel
argument of the auxiliary function only makes the recursion structural:
`l.length` steps always suffice when `c > 0`. -/
def chunksList (c : Nat) (l : List α) : List (List α) :=
  if c = 0 then [] else chunksListAux c l.length l

/-- SHA-256 padding: append `0x80`, zeros to 56 mod 64, then the 64-bit
big-endian bit length. -/
def shaPad (msg : List Nat) : List Nat :=
  msg ++ 128 :: List.replicate ((119 - msg.length % 64) % 64) 0
      ++ u64ToBeBytes (msg.length * 8)

/-- SHA-256 of a byte list, as a list of 32 bytes. -/
def sha256 (msg : List Nat) : List Nat :=
  (((chunksList 64 (shaPad msg)).foldl compressBlock H256).map wordToBytes).flatten

/-- One lowercase hex digit. -/
def hexDigit (n : Nat) : Char :=
  Char.ofNat (if n < 10 then 48 + n else 87 + n)

/-- Lowercase hex encoding of a byte list (the `hex::encode` function). -/
def hexEncode (bytes : List Nat) : String :=
  ⟨(bytes.map (fun b => [hexDigit (b / 16 % 16), hexDigit (b % 16)])).flatten⟩

/-- UTF-8 encoding of one scalar value. -/
def utf8EncodeChar (ch : Char) : List Nat :=
  let n := ch.toNat
  if n < 128 then [n]
  else if n < 2048 then [192 + n / 64, 128 + n % 64]
  else if n < 65536 then [224 + n / 4096, 128 + n / 64 % 64, 128 + n % 64]
  else [240 + n / 262144, 128 + n / 4096 % 64, 128 + n / 64 % 64, 128 + n % 64]

/-- UTF-8 bytes of a string (`str::as_bytes` on the lossy path string). -/
def utf8Bytes (s : String) : List Nat := (s.data.map utf8EncodeChar).flatten

/-- Streaming-hasher model of `sha2::Sha256`: `update` accumulates input
bytes, `finalize` digests everything fed so far.  (The Rust implementation
compresses incrementally; feeding bytes incrementally and digesting at the
end is functionally the digest of the concatenation, which is what this
model states directly.) -/
structure Sha256Hasher where
  buf : List Nat
deriving DecidableEq, Repr

/-- Model of `Sha256::new()`. -/
def Sha256Hasher.init : Sha256Hasher := ⟨[]⟩

/-- Model of `Hasher::update`. -/
def Sha256Hasher.update (st : Sha256Hasher) (bytes : List Nat) : Sha256Hasher :=
  ⟨st.buf ++ bytes⟩

/-- Model of `Hasher::finalize`. -/
def Sha256Hasher.digest (st : Sha256Hasher) : List Nat := sha256 st.buf

/-- SHA-256 of a byte list, hex-encoded (sanity-check helper). -/
def sha256Hex (msg : List Nat) : String := hexEncode (sha256 msg)

/-! ## Data model (`mod.rs`, lines 27-71) -/

/-- Embedding of `ImportResult` (mod.rs 28-33): the response descriptor of an analysis. -/
structure ImportResult where
  file_path : String
  duration_seconds : ℚ
  cache_key : String
deriving DecidableEq, Repr

/-- Embedding of `WaveformData` (mod.rs 35-40): the durable waveform summary. -/
structure WaveformData where
  peaks : List ℚ
  duration : ℚ
  sample_rate : Nat
deriving DecidableEq, Repr

/-- Embedding of `PeakCache` (mod.rs 42-46): entry type of the secondary peak-only cache. -/
structure PeakCache where
  peaks : List ℚ
  sample_rate : Nat
deriving DecidableEq, Repr

/-- Embedding of `AudioError` (mod.rs 49-65), one constructor per `enum` variant. -/
inductive AudioError where
  | Io (msg : String)
  | Symphonia (msg : String)
  | InvalidAudioFile (msg : String)
  | Cache (msg : String)
  | Processing (msg : String)
deriving DecidableEq, Repr

/-- Constructor discriminator for `AudioError::Processing`. -/
def AudioError.isProcessing : AudioError → Bool
  | .Processing _ => true
  | _ => false

/-- Constructor discriminator for `AudioError::InvalidAudioFile`. -/
def AudioError.isInvalidAudioFile : AudioError → Bool
  | .InvalidAudioFile _ => true
  | _ => false

/-- The two `Mutex<HashMap<String, _>>` fields of `AudioProcessor`
(mod.rs 68-71), as association lists: `cache` is the secondary peak-only
cache, `waveform_cache` the waveform store. -/
structure ProcState where
  cache : List (String × PeakCache)
  waveform_cache : List (String × WaveformData)
deriving DecidableEq, Repr

/-- Model of `HashMap::get`: first-match lookup in the association-list model. -/
def findVal {α : Type} : List (String × α) → String → Option α
  | [], _ => none
  | (k, v) :: rest, key => if k = key then some v else findVal rest key

/-- Model of `AudioProcessor::new()` (mod.rs 74-79): both caches empty. -/
def AudioProcessor.new : ProcState := ⟨[], []⟩

/-! ## Key Deriver (`generate_cache_key`, mod.rs 240-252) -/

/-- Embedding of `generate_cache_key` (mod.rs 240-252) after the metadata read has
succeeded: three `hasher.update` calls — path bytes, big-endian mtime
seconds, big-endian byte length — then hex-encode the finalized digest. -/
def generate_cache_key (path : String) (mtime size : Nat) : String :=
  let hasher := Sha256Hasher.init
  let hasher := hasher.update (utf8Bytes path)
  let hasher := hasher.update (u64ToBeBytes mtime)
  let hasher := hasher.update (u64ToBeBytes size)
  hexEncode hasher.digest

/-- The spec's words for the key (§4.1): hex encoding of the 256-bit digest
of path bytes, then big-endian mtime seconds, then big-endian byte length,
in one pass over the concatenation. -/
def cacheKeySpec (path : String) (mtime size : Nat) : String :=
  hexEncode (sha256 (utf8Bytes path ++ u64ToBeBytes mtime ++ u64ToBeBytes size))

/-! ## Decode Pipeline (`process_audio_frames`, mod.rs 187-237) -/

/-- What the external decoder produces for one packet pulled by
`format.next_packet()`: either the decoded interleaved `f32` samples
(after `copy_interleaved_ref` into the scratch buffer) or a decode
error message. -/
inductive DecodeOutcome where
  | ok (samples : List ℚ)
  | err (msg : String)
deriving DecidableEq, Repr

/-- Peak reduction of one chunk (mod.rs 224-227): fold of `max` over the
absolute values, starting from `0.0`. -/
def slicePeak (chunk : List ℚ) : ℚ :=
  (chunk.map (fun s => |s|)).foldl max 0

/-- The packet loop of `process_audio_frames` (mod.rs 197-230) with the
peaks accumulated so far.  A packet whose decode fails aborts with
`AudioError::Symphonia("Decode error: ...")`; end of the packet list is
the `while let` loop ending (end-of-stream or any `next_packet` error). -/
def processFramesGo (sample_rate : Nat) :
    List DecodeOutcome → List ℚ → Except AudioError WaveformData
  | [], peaks => .ok ⟨peaks, 0, sample_rate⟩
  | .err e :: _, _ => .error (.Symphonia ("Decode error: " ++ e))
  | .ok samples :: rest, peaks =>
      let chunk_size := sample_rate / 50
      processFramesGo sample_rate rest
        (peaks ++ (chunksList chunk_size samples).map slicePeak)

/-- Embedding of `process_audio_frames` (mod.rs 187-237): drive the decode loop from an
empty peak accumulator; on success the summary carries `duration = 0.0`
(set by the caller, mod.rs 234). -/
def process_audio_frames (packets : List DecodeOutcome) (sample_rate : Nat) :
    Except AudioError WaveformData :=
  processFramesGo sample_rate packets []

/-! ## Processor Facade (`analyze_audio`, mod.rs 109-184) -/

/-- The environment of one `analyze_audio` call: the source file's
metadata triple plus the outcome of each external fallible step.
`metaErr?` is a failing `fs::metadata`/`modified()` read inside
`generate_cache_key` (mod.rs 242-243), `openErr?` a failing `File::open`
(mod.rs 129), `probeErr?` a failing format probe (mod.rs 143-145),
`hasTrack` whether `default_track()` returns a track (mod.rs 148-150),
`decoderErr?` a failing `make` of the codec decoder (mod.rs 153-155),
`sampleRate?`/`nFrames?` the optional codec parameters (mod.rs 158-167),
and `packets` the decoded packet stream (mod.rs 197-230). -/
structure AudioSource where
  path : String
  mtime : Nat
  size : Nat
  metaErr? : Option String
  openErr? : Option String
  probeErr? : Option String
  hasTrack : Bool
  decoderErr? : Option String
  sampleRate? : Option Nat
  nFrames? : Option Nat
  packets : List DecodeOutcome
deriving DecidableEq, Repr

/-- The metadata triple `generate_cache_key` reads. -/
def AudioSource.metaTriple (src : AudioSource) : String × Nat × Nat :=
  (src.path, src.mtime, src.size)

deriving instance DecidableEq for Except

/-- Outcome of one `analyze_audio` call: the returned `Result`, the
processor state after the call, and whether `process_audio_frames`
was invoked (instrumentation for the only-decoded-once claims; it is
`true` exactly when control reaches mod.rs line 170). -/
structure AnalyzeOut where
  result : Except AudioError ImportResult
  state : ProcState
  ranPipeline : Bool
deriving DecidableEq, Repr

/-- Embedding of `analyze_audio` (mod.rs 109-184): derive the key, return early on a
waveform-cache hit, otherwise open/probe/select track/make decoder/read
codec parameters, run the decode pipeline, overwrite its duration with
the codec-derived one, insert into the waveform cache and return. -/
def analyze_audio (st : ProcState) (src : AudioSource) : AnalyzeOut :=
  match src.metaErr? with
  | some e => ⟨.error (.Io e), st, false⟩
  | none =>
    let cache_key := generate_cache_key src.path src.mtime src.size
    match findVal st.waveform_cache cache_key with
    | some waveform =>
        ⟨.ok ⟨src.path, waveform.duration, cache_key⟩, st, false⟩
    | none =>
      match src.openErr? with
      | some e => ⟨.error (.Io e), st, false⟩
      | none =>
        match src.probeErr? with
        | some e => ⟨.error (.Symphonia e), st, false⟩
        | none =>
          if src.hasTrack = false then
            ⟨.error (.InvalidAudioFile "No default track found"), st, false⟩
          else
            match src.decoderErr? with
            | some e => ⟨.error (.Symphonia e), st, false⟩
            | none =>
              match src.sampleRate? with
              | none =>
                  ⟨.error (.InvalidAudioFile "Could not determine sample rate"),
                   st, false⟩
              | some sample_rate =>
                match src.nFrames? with
                | none =>
                    ⟨.error (.InvalidAudioFile "Could not determine duration"),
                     st, false⟩
                | some frames =>
                  let duration : ℚ := (frames : ℚ) / (sample_rate : ℚ)
                  match process_audio_frames src.packets sample_rate with
                  | .error e => ⟨.error e, st, true⟩
                  | .ok wd =>
                      let wd' : WaveformData := { wd with duration := duration }
                      ⟨.ok ⟨src.path, duration, cache_key⟩,
                       { st with
                          waveform_cache :=
                            (cache_key, wd') :: st.waveform_cache },
                       true⟩

/-- Embedding of `process_upload` (mod.rs 82-106): receive and persist the uploaded
bytes (any IO failure there aborts before analysis), then call
`analyze_audio` on the saved file. -/
def process_upload (st : ProcState) (uploadErr? : Option String)
    (src : AudioSource) : AnalyzeOut :=
  match uploadErr? with
  | some e => ⟨.error (.Io e), st, false⟩
  | none => analyze_audio st src

/-- Embedding of `get_waveform` (mod.rs 255-262): lookup in the waveform cache, with a
`Cache` error on a miss. -/
def get_waveform (st : ProcState) (cache_key : String) :
    Except AudioError WaveformData :=
  match findVal st.waveform_cache cache_key with
  | some wd => .ok wd
  | none => .error (.Cache "Waveform data not found in cache")

/-- Embedding of `get_peaks` (mod.rs 265-272): lookup in the secondary peak-only cache,
with a `Cache` error on a miss. -/
def get_peaks (st : ProcState) (cache_key : String) :
    Except AudioError PeakCache :=
  match findVal st.cache cache_key with
  | some pc => .ok pc
  | none => .error (.Cache "Peak data not found in cache")

/-! ## Sequential executions of the public operations -/

/-- One public `AudioProcessor` operation together with its environment
inputs, for reasoning about sequential executions. -/
inductive Op where
  | analyze (src : AudioSource)
  | upload (uploadErr? : Option String) (src : AudioSource)
  | getWaveform (key : String)
  | getPeaks (key : String)
deriving Repr

/-- State transition of one operation (reads leave the state unchanged). -/
def stepOp (st : ProcState) : Op → ProcState
  | .analyze src => (analyze_audio st src).state
  | .upload e src => (process_upload st e src).state
  | .getWaveform _ => st
  | .getPeaks _ => st

/-- Run a sequence of operations from a state. -/
def runOps (st : ProcState) : List Op → ProcState
  | [] => st
  | op :: ops => runOps (stepOp st op) ops

/-! ## Observation helpers (not part of the source; used only to state
properties of results) -/

/-- The decoded samples an outcome carries (`[]` for a decode error). -/
def DecodeOutcome.samplesOf : DecodeOutcome → List ℚ
  | .ok samples => samples
  | .err _ => []

/-- Observe the peak count of a pipeline result. -/
def peaksLengthOf : Except AudioError WaveformData → Option Nat
  | .ok wd => some wd.peaks.length
  | .error _ => none

/-! ## Theorems -/

set_option maxRecDepth 100000 in
/-- FIPS 180-4 test vector: SHA-256 of the empty message (validates the
embedded digest). -/
theorem sha256_empty_vector :
    sha256Hex [] = "e3b0c44298fc1c149afbf4c8996fb92427ae41e4649b934ca495991b7852b855" := by
  rfl

set_option maxRecDepth 100000 in
/-- FIPS 180-4 test vector: SHA-256 of "abc" (validates the embedded
digest). -/
theorem sha256_abc_vector :
    sha256Hex (utf8Bytes "abc")
      = "ba7816bf8f01cfea414140de5dae2223b00361a396177a9cb410ff61f20015ad" := by
  rfl

/-! ## Lemmas about `chunksList` -/

/-- The fuel of `chunksListAux` is irrelevant once it covers the list
length (for a positive chunk size). -/
theorem chunksListAux_congr {α : Type} (c : Nat) (hc : 0 < c) (l : List α)
    (f1 f2 : Nat) (h1 : l.length ≤ f1) (h2 : l.length ≤ f2) :
    chunksListAux c f1 l = chunksListAux c f2 l := by
  induction f1 generalizing l f2 with
  | zero =>
    have hl : l = [] := List.length_eq_zero.mp (Nat.le_zero.mp h1)
    subst hl
    cases f2 <;> rfl
  | succ f ih =>
    cases l with
    | nil => cases f2 <;> rfl
    | cons x xs =>
      cases f2 with
      | zero => simp at h2
      | succ g =>
        simp only [chunksListAux]
        congr 1
        apply ih
        · simp only [List.length_drop, List.length_cons] at *
          omega
        · simp only [List.length_drop, List.length_cons] at *
          omega

/-- Chunking the empty list gives no chunks. -/
theorem chunksList_nil {α : Type} (c : Nat) : chunksList c ([] : List α) = [] := by
  by_cases h : c = 0 <;> simp [chunksList, h, chunksListAux]

/-- Unfolding equation of `chunksList` on a nonempty list, for a positive
chunk size: one full (or final short) chunk, then the chunks of the rest. -/
theorem chunksList_cons {α : Type} (c : Nat) (hc : 0 < c) (x : α) (xs : List α) :
    chunksList c (x :: xs)
      = ((x :: xs).take c) :: chunksList c ((x :: xs).drop c) := by
  unfold chunksList
  rw [if_neg (Nat.pos_iff_ne_zero.mp hc), if_neg (Nat.pos_iff_ne_zero.mp hc)]
  simp only [List.length_cons, chunksListAux]
  congr 1
  apply chunksListAux_congr c hc
  · simp only [List.length_drop, List.length_cons]
    omega
  · exact Nat.le_refl _

/-- Number of chunks, by strong induction on a length bound: exactly
`ceil(length / c)`, written with Nat division as `(length + c - 1) / c`. -/
theorem chunksList_length_bounded {α : Type} (c : Nat) (hc : 0 < c) :
    ∀ (n : Nat) (l : List α), l.length ≤ n →
      (chunksList c l).length = (l.length + c - 1) / c := by
  intro n
  induction n using Nat.strong_induction_on with
  | _ n ih =>
    intro l hl
    cases l with
    | nil =>
      rw [chunksList_nil]
      simp only [List.length_nil]
      rw [Nat.div_eq_of_lt (by omega)]
    | cons x xs =>
      have hn : 0 < n := by
        have := hl
        simp only [List.length_cons] at this
        omega
      rw [chunksList_cons c hc]
      have hlen : ((x :: xs).drop c).length ≤ n - 1 := by
        simp only [List.length_drop, List.length_cons]
        simp only [List.length_cons] at hl
        omega
      have ihd := ih (n - 1) (by omega) ((x :: xs).drop c) hlen
      simp only [List.length_cons, List.length_drop] at ihd ⊢
      rw [ihd]
      rcases Nat.lt_or_ge xs.length (c - 1) with hlt | hge
      · have h1 : xs.length + 1 - c = 0 := by omega
        have h3 : xs.length + 1 + c - 1 = xs.length + c := by omega
        rw [h1, h3, Nat.div_eq_of_lt (by omega : 0 + c - 1 < c),
            Nat.add_div_right _ hc, Nat.div_eq_of_lt (by omega)]
      · have h3 : xs.length + 1 + c - 1 = (xs.length + 1 - c + c - 1) + c := by
          omega
        rw [h3, Nat.add_div_right _ hc]

/-- Number of chunks: exactly `ceil(length / c)`. -/
theorem chunksList_length {α : Type} (c : Nat) (hc : 0 < c) (l : List α) :
    (chunksList c l).length = (l.length + c - 1) / c :=
  chunksList_length_bounded c hc l.length l (Nat.le_refl _)

/-- Every element of a chunk is an element of the chunked list (strong
induction on a length bound). -/
theorem chunksList_subset_bounded {α : Type} (c : Nat) :
    ∀ (n : Nat) (l : List α), l.length ≤ n →
      ∀ ch ∈ chunksList c l, ∀ s ∈ ch, s ∈ l := by
  intro n
  induction n using Nat.strong_induction_on with
  | _ n ih =>
    intro l hl ch hch s hs
    rcases Nat.eq_zero_or_pos c with hc | hc
    · subst hc
      rcases l with _ | ⟨x, xs⟩
      · rw [chunksList_nil] at hch
        exact absurd hch (List.not_mem_nil ch)
      · simp [chunksList] at hch
    · cases l with
      | nil =>
        rw [chunksList_nil] at hch
        exact absurd hch (List.not_mem_nil ch)
      | cons x xs =>
        rw [chunksList_cons c hc] at hch
        have hn : 0 < n := by
          simp only [List.length_cons] at hl
          omega
        rcases List.mem_cons.mp hch with hch | hch
        · subst hch
          exact List.take_subset c (x :: xs) hs
        · have hlen : ((x :: xs).drop c).length ≤ n - 1 := by
            simp only [List.length_drop, List.length_cons]
            simp only [List.length_cons] at hl
            omega
          exact List.drop_subset c (x :: xs)
            (ih (n - 1) (by omega) ((x :: xs).drop c) hlen ch hch s hs)

/-- Every element of a chunk is an element of the chunked list. -/
theorem chunksList_subset {α : Type} (c : Nat) (l : List α) (ch : List α)
    (hch : ch ∈ chunksList c l) (s : α) (hs : s ∈ ch) : s ∈ l :=
  chunksList_subset_bounded c l.length l (Nat.le_refl _) ch hch s hs

/-! ## Lemmas about the decode pipeline -/

/-- The packet loop on an all-ok packet stream: it succeeds and the peak
sequence is the accumulator followed by each packet's chunks reduced by
`slicePeak`, in order. -/
theorem processFramesGo_all_ok (R : Nat) (frames : List (List ℚ)) (acc : List ℚ) :
    processFramesGo R (frames.map DecodeOutcome.ok) acc
      = .ok ⟨acc ++ (frames.map
            (fun f => (chunksList (R / 50) f).map slicePeak)).flatten, 0, R⟩ := by
  induction frames generalizing acc with
  | nil => simp [processFramesGo]
  | cons f fs ih =>
    simp only [List.map_cons, processFramesGo, List.flatten_cons]
    rw [ih]
    simp [List.append_assoc]

/-- The packet loop aborts at the first packet whose decode fails, with a
`Symphonia` decode error, whatever was accumulated and whatever follows. -/
theorem processFramesGo_first_err (R : Nat) (good : List (List ℚ)) (e : String)
    (rest : List DecodeOutcome) (acc : List ℚ) :
    processFramesGo R (good.map DecodeOutcome.ok ++ DecodeOutcome.err e :: rest) acc
      = .error (.Symphonia ("Decode error: " ++ e)) := by
  induction good generalizing acc with
  | nil => rfl
  | cons f fs ih =>
    simp only [List.map_cons, List.cons_append, processFramesGo]
    exact ih _

/-- The start of a `foldl max` is a lower bound of its result. -/
theorem foldl_max_init_le (l : List ℚ) (a : ℚ) : a ≤ l.foldl max a := by
  induction l generalizing a with
  | nil => exact le_refl a
  | cons x xs ih => exact le_trans (le_max_left a x) (ih (max a x))

/-- A bound on the start and all elements bounds a `foldl max`. -/
theorem foldl_max_le (l : List ℚ) (a b : ℚ) (ha : a ≤ b)
    (hl : ∀ x ∈ l, x ≤ b) : l.foldl max a ≤ b := by
  induction l generalizing a with
  | nil => exact ha
  | cons x xs ih =>
    exact ih (max a x) (max_le ha (hl x (List.mem_cons_self x xs)))
      (fun y hy => hl y (List.mem_cons_of_mem x hy))

/-- A slice peak is never negative (the fold starts at `0.0`). -/
theorem slicePeak_nonneg (chunk : List ℚ) : 0 ≤ slicePeak chunk :=
  foldl_max_init_le _ 0

/-- A slice peak of samples with absolute value at most one is at most
one. -/
theorem slicePeak_le_one (chunk : List ℚ) (h : ∀ s ∈ chunk, |s| ≤ 1) :
    slicePeak chunk ≤ 1 := by
  apply foldl_max_le
  · norm_num
  · intro x hx
    rcases List.mem_map.mp hx with ⟨s, hs, rfl⟩
    exact h s hs

/-- Peak bound along the packet loop: a bounded accumulator and normalized
samples give bounded peaks in the successful summary. -/
theorem processFramesGo_peaks_bounded (R : Nat) (packets : List DecodeOutcome) :
    ∀ (acc : List ℚ) (wd : WaveformData),
      processFramesGo R packets acc = .ok wd →
      (∀ x ∈ acc, 0 ≤ x ∧ x ≤ 1) →
      (∀ p ∈ packets, ∀ s ∈ DecodeOutcome.samplesOf p, |s| ≤ 1) →
      ∀ x ∈ wd.peaks, 0 ≤ x ∧ x ≤ 1 := by
  induction packets with
  | nil =>
    intro acc wd hok hacc _ x hx
    simp only [processFramesGo, Except.ok.injEq] at hok
    rw [← hok] at hx
    exact hacc x hx
  | cons p ps ih =>
    intro acc wd hok hacc hnorm x hx
    cases p with
    | err m => simp [processFramesGo] at hok
    | ok samples =>
      simp only [processFramesGo] at hok
      refine ih _ wd hok ?_ (fun q hq => hnorm q (List.mem_cons_of_mem _ hq)) x hx
      intro y hy
      rcases List.mem_append.mp hy with hy | hy
      · exact hacc y hy
      · rcases List.mem_map.mp hy with ⟨ch, hch, rfl⟩
        refine ⟨slicePeak_nonneg ch, slicePeak_le_one ch ?_⟩
        intro s hs
        exact hnorm (DecodeOutcome.ok samples) (List.mem_cons_self _ _) s
          (chunksList_subset _ _ ch hch s hs)

/-! ## Claim C2 — peak count law -/

/-- C2, counterexample: the global peak-count law fails on the code.  A
mono stream of `F = 6` total frames at `R = 100` delivered as two packets
of 3 samples produces `4` peaks (each packet's final short chunk gets its
own peak), while `ceil(F / (R / 50)) = 3`. -/
theorem peak_count_global_law_counterexample :
    peaksLengthOf (process_audio_frames
        [DecodeOutcome.ok [0, 0, 0], DecodeOutcome.ok [0, 0, 0]] 100) = some 4 ∧
    (3 + 3 + 100 / 50 - 1) / (100 / 50) = 3 ∧ (4 : Nat) ≠ 3 := by
  refine ⟨rfl, by decide, by decide⟩

/-- C2, amended: for a decoded mono stream at sample rate `R ≥ 50`
delivered as packets of `F₁, …, Fₙ` frames, the peak sequence has
`Σᵢ ceil(Fᵢ / (R / 50))` entries — the chunking is per packet, so the
spec's global law `len(peaks) = ceil(F / (R / 50))` holds exactly when
every packet but the last carries a multiple of `R / 50` frames (in
particular for a single-packet stream). -/
theorem peak_count_per_packet_law (R : Nat) (hR : 50 ≤ R)
    (frames : List (List ℚ)) :
    peaksLengthOf (process_audio_frames (frames.map DecodeOutcome.ok) R)
      = some ((frames.map
          (fun f => (f.length + R / 50 - 1) / (R / 50))).sum) := by
  have hc : 0 < R / 50 := Nat.div_pos hR (by norm_num)
  rw [process_audio_frames, processFramesGo_all_ok]
  simp only [peaksLengthOf, List.nil_append, Option.some.injEq,
    List.length_flatten, List.map_map]
  congr 1
  apply List.map_congr_left
  intro f _
  simp only [Function.comp_apply, List.length_map]
  exact chunksList_length (R / 50) hc f

/-- C2 witness: the amended law evaluated on the counterexample stream —
two packets of 3 frames at `R = 100` give `2 + 2 = 4` peaks. -/
theorem peak_count_per_packet_law_witness :
    (50 ≤ 100) ∧
    peaksLengthOf (process_audio_frames
        (([[0, 0, 0], [0, 0, 0]] : List (List ℚ)).map DecodeOutcome.ok) 100)
      = some ((([[0, 0, 0], [0, 0, 0]] : List (List ℚ)).map
          (fun f => (f.length + 100 / 50 - 1) / (100 / 50))).sum) :=
  ⟨by decide, peak_count_per_packet_law 100 (by decide) [[0, 0, 0], [0, 0, 0]]⟩

/-! ## Claim C5 — bounded amplitude -/

/-- C5: whenever the pipeline succeeds on packets whose decoded samples
are all normalized (`|s| ≤ 1`), every produced peak lies in `[0, 1]`. -/
theorem peaks_bounded_for_normalized_samples (R : Nat)
    (packets : List DecodeOutcome) (wd : WaveformData)
    (hok : process_audio_frames packets R = .ok wd)
    (hnorm : ∀ p ∈ packets, ∀ s ∈ DecodeOutcome.samplesOf p, |s| ≤ 1) :
    ∀ x ∈ wd.peaks, 0 ≤ x ∧ x ≤ 1 :=
  processFramesGo_peaks_bounded R packets [] wd hok (by simp) hnorm

/-- C5 witness: one packet `[1/2, -1]` at `R = 100` yields the summary
with peak list `[1]`, and the bound holds there. -/
theorem peaks_bounded_for_normalized_samples_witness :
    process_audio_frames [DecodeOutcome.ok [1 / 2, -1]] 100
        = .ok ⟨[1], 0, 100⟩ ∧
    ∀ x ∈ (WaveformData.mk [1] 0 100).peaks, 0 ≤ x ∧ x ≤ 1 := by
  have hok : process_audio_frames [DecodeOutcome.ok [1 / 2, -1]] 100
      = .ok ⟨[1], 0, 100⟩ := by
    norm_num [process_audio_frames, processFramesGo, chunksList, chunksListAux,
      slicePeak, List.foldl, abs]
  refine ⟨hok, peaks_bounded_for_normalized_samples 100 _ _ hok ?_⟩
  intro p hp s hs
  simp only [List.mem_singleton] at hp
  subst hp
  simp only [DecodeOutcome.samplesOf, List.mem_cons, List.mem_singleton,
    List.not_mem_nil, or_false] at hs
  rcases hs with rfl | rfl <;> norm_num [abs_le]

/-! ## Claim C6 — decoder rejection inside the loop -/

/-- C6, counterexample: when the decoder rejects a packet the analysis
aborts, but the error is the `Symphonia` variant, not `Processing` as the
claim states. -/
theorem decode_error_processing_counterexample :
    process_audio_frames [DecodeOutcome.err "bad"] 44100
        = .error (.Symphonia "Decode error: bad") ∧
    AudioError.isProcessing (AudioError.Symphonia "Decode error: bad") = false := by
  exact ⟨rfl, rfl⟩

/-- C6, amended: whenever the external decoder rejects a coded packet
inside the decode loop, the call aborts immediately — all peaks
accumulated from the preceding packets are discarded and the packets after
the rejected one are never reached — and returns a `Symphonia` decode
error. -/
theorem decode_error_aborts_with_symphonia (R : Nat) (good : List (List ℚ))
    (e : String) (rest : List DecodeOutcome) :
    process_audio_frames
        (good.map DecodeOutcome.ok ++ DecodeOutcome.err e :: rest) R
      = .error (.Symphonia ("Decode error: " ++ e)) :=
  processFramesGo_first_err R good e rest []

/-! ## Claim C4 — cache key derivation -/

/-- C4: `generate_cache_key` (three incremental `update`s, then hex of the
finalized digest) returns exactly the hex encoding of the SHA-256 digest
of the path bytes followed by the 8 big-endian modification-time bytes
followed by the 8 big-endian length bytes; being a function of the triple,
the same `(path, mtime, size)` always yields the same key. -/
theorem generate_cache_key_eq_spec_digest (path : String) (mtime size : Nat) :
    generate_cache_key path mtime size = cacheKeySpec path mtime size := by
  simp [generate_cache_key, cacheKeySpec, Sha256Hasher.init,
    Sha256Hasher.update, Sha256Hasher.digest, List.append_assoc]

/-! ## Structural lemmas about `analyze_audio` -/

/-- Lookup after a prepend, at the prepended key. -/
theorem findVal_insert_self {α : Type} (l : List (String × α)) (k : String)
    (v : α) : findVal ((k, v) :: l) k = some v := by
  simp [findVal]

/-- Lookup after a prepend, at a different key. -/
theorem findVal_insert_other {α : Type} (l : List (String × α)) (k k' : String)
    (v : α) (h : k ≠ k') : findVal ((k, v) :: l) k' = findVal l k' := by
  simp [findVal, h]

/-- The post-state of `analyze_audio`: either untouched (cache hit or any
failure) or the old state with exactly one new waveform-cache entry,
prepended at a key that was absent. -/
theorem analyze_audio_state_shape (st : ProcState) (src : AudioSource) :
    (analyze_audio st src).state = st ∨
    ∃ key wd, findVal st.waveform_cache key = none ∧
      (analyze_audio st src).state
        = { st with waveform_cache := (key, wd) :: st.waveform_cache } := by
  unfold analyze_audio
  cases hm : src.metaErr? with
  | some e => simp [hm]
  | none =>
  cases hfind : findVal st.waveform_cache
      (generate_cache_key src.path src.mtime src.size) with
  | some wf => simp [hm, hfind]
  | none =>
  cases ho : src.openErr? with
  | some e => simp [hm, hfind, ho]
  | none =>
  cases hp : src.probeErr? with
  | some e => simp [hm, hfind, ho, hp]
  | none =>
  cases ht : src.hasTrack with
  | false => simp [hm, hfind, ho, hp, ht]
  | true =>
  cases hd : src.decoderErr? with
  | some e => simp [hm, hfind, ho, hp, ht, hd]
  | none =>
  cases hsr : src.sampleRate? with
  | none => simp [hm, hfind, ho, hp, ht, hd, hsr]
  | some sr =>
  cases hnf : src.nFrames? with
  | none => simp [hm, hfind, ho, hp, ht, hd, hsr, hnf]
  | some nf =>
  cases hproc : process_audio_frames src.packets sr with
  | error e => simp [hm, hfind, ho, hp, ht, hd, hsr, hnf, hproc]
  | ok wd =>
    right
    refine ⟨generate_cache_key src.path src.mtime src.size,
      { wd with duration := (nf : ℚ) / (sr : ℚ) }, hfind, ?_⟩
    simp [hm, hfind, ho, hp, ht, hd, hsr, hnf, hproc]

/-- Analysis never touches the secondary peak-only cache. -/
theorem analyze_audio_cache_field (st : ProcState) (src : AudioSource) :
    (analyze_audio st src).state.cache = st.cache := by
  rcases analyze_audio_state_shape st src with h | ⟨key, wd, _, h⟩ <;> rw [h]

/-- Analysis never replaces or removes an existing waveform-cache
entry: the only insert happens at a key that was absent. -/
theorem analyze_audio_preserves_entry (st : ProcState) (src : AudioSource)
    (k : String) (v : WaveformData)
    (h : findVal st.waveform_cache k = some v) :
    findVal (analyze_audio st src).state.waveform_cache k = some v := by
  rcases analyze_audio_state_shape st src with hs | ⟨key, wd, hnone, hs⟩
  · rw [hs]
    exact h
  · rw [hs]
    have hne : key ≠ k := by
      intro he
      rw [he, h] at hnone
      cases hnone
    rw [findVal_insert_other _ _ _ _ hne]
    exact h

/-- What a successful `analyze_audio` call guarantees: the result carries
the source path and the derived key, and afterwards the waveform cache
holds, at that key, a summary whose duration is the returned
`duration_seconds`. -/
theorem analyze_audio_ok_lookup (st : ProcState) (src : AudioSource)
    (r : ImportResult) (h : (analyze_audio st src).result = .ok r) :
    r.file_path = src.path ∧
    r.cache_key = generate_cache_key src.path src.mtime src.size ∧
    ∃ wd, findVal (analyze_audio st src).state.waveform_cache r.cache_key
            = some wd
        ∧ wd.duration = r.duration_seconds := by
  cases hm : src.metaErr? with
  | some e => simp [analyze_audio, hm] at h
  | none =>
  cases hfind : findVal st.waveform_cache
      (generate_cache_key src.path src.mtime src.size) with
  | some wf =>
    have hcall : analyze_audio st src
        = ⟨.ok ⟨src.path, wf.duration,
            generate_cache_key src.path src.mtime src.size⟩, st, false⟩ := by
      simp [analyze_audio, hm, hfind]
    rw [hcall] at h
    simp only [Except.ok.injEq] at h
    subst h
    rw [hcall]
    exact ⟨rfl, rfl, wf, hfind, rfl⟩
  | none =>
  cases ho : src.openErr? with
  | some e => simp [analyze_audio, hm, hfind, ho] at h
  | none =>
  cases hp : src.probeErr? with
  | some e => simp [analyze_audio, hm, hfind, ho, hp] at h
  | none =>
  cases ht : src.hasTrack with
  | false => simp [analyze_audio, hm, hfind, ho, hp, ht] at h
  | true =>
  cases hd : src.decoderErr? with
  | some e => simp [analyze_audio, hm, hfind, ho, hp, ht, hd] at h
  | none =>
  cases hsr : src.sampleRate? with
  | none => simp [analyze_audio, hm, hfind, ho, hp, ht, hd, hsr] at h
  | some sr =>
  cases hnf : src.nFrames? with
  | none => simp [analyze_audio, hm, hfind, ho, hp, ht, hd, hsr, hnf] at h
  | some nf =>
  cases hproc : process_audio_frames src.packets sr with
  | error e => simp [analyze_audio, hm, hfind, ho, hp, ht, hd, hsr, hnf, hproc] at h
  | ok wd =>
    have hcall : analyze_audio st src
        = ⟨.ok ⟨src.path, (nf : ℚ) / (sr : ℚ),
              generate_cache_key src.path src.mtime src.size⟩,
           { st with waveform_cache :=
              (generate_cache_key src.path src.mtime src.size,
               { wd with duration := (nf : ℚ) / (sr : ℚ) })
                :: st.waveform_cache },
           true⟩ := by
      simp [analyze_audio, hm, hfind, ho, hp, ht, hd, hsr, hnf, hproc]
    rw [hcall] at h
    simp only [Except.ok.injEq] at h
    subst h
    rw [hcall]
    exact ⟨rfl, rfl, { wd with duration := (nf : ℚ) / (sr : ℚ) },
      findVal_insert_self _ _ _, rfl⟩

/-! ## Claim C1 — cache idempotence of `analyze_audio` -/

/-- C1: after a successful `analyze_audio` call on a source, a second call
on a source with the same metadata triple (and a readable metadata, i.e.
an unchanged file) is a pure cache hit: it returns the very same
`ImportResult` (in particular the same `cache_key` and
`duration_seconds`, served from the stored summary), leaves the state
unchanged, and does not run the decode pipeline. -/
theorem analyze_audio_second_call_cached (st : ProcState)
    (src1 src2 : AudioSource) (r1 : ImportResult)
    (h1 : (analyze_audio st src1).result = .ok r1)
    (hpath : src2.path = src1.path) (hmt : src2.mtime = src1.mtime)
    (hsz : src2.size = src1.size) (hm2 : src2.metaErr? = none) :
    analyze_audio (analyze_audio st src1).state src2
      = ⟨.ok r1, (analyze_audio st src1).state, false⟩ := by
  obtain ⟨hfp, hck, wd, hfind, hdur⟩ := analyze_audio_ok_lookup st src1 r1 h1
  set st1 := (analyze_audio st src1).state with hst1
  have hkey : generate_cache_key src2.path src2.mtime src2.size
      = r1.cache_key := by
    rw [hpath, hmt, hsz, hck]
  have hfind2 : findVal st1.waveform_cache
      (generate_cache_key src2.path src2.mtime src2.size) = some wd := by
    rw [hkey]
    exact hfind
  have hres : (⟨src2.path, wd.duration,
      generate_cache_key src2.path src2.mtime src2.size⟩ : ImportResult)
      = r1 := by
    rcases r1 with ⟨fp, ds, ck⟩
    simp only [ImportResult.mk.injEq]
    refine ⟨?_, ?_, ?_⟩
    · rw [hpath]
      exact hfp.symm
    · exact hdur
    · exact hkey
  simp only [analyze_audio, hm2, hfind2, hres]

/-- C1 witness: a concrete fully-successful first call (empty caches, a
one-packet silent stream, 200 frames at 100 Hz), then the second call on
the unchanged file served from the cache. -/
theorem analyze_audio_second_call_cached_witness :
    ((analyze_audio AudioProcessor.new
        ⟨"a", 0, 0, none, none, none, true, none, some 100, some 200,
          [DecodeOutcome.ok []]⟩).result
      = .ok ⟨"a", ((200 : Nat) : ℚ) / ((100 : Nat) : ℚ),
          generate_cache_key "a" 0 0⟩) ∧
    analyze_audio
        (analyze_audio AudioProcessor.new
          ⟨"a", 0, 0, none, none, none, true, none, some 100, some 200,
            [DecodeOutcome.ok []]⟩).state
        ⟨"a", 0, 0, none, none, none, true, none, some 100, some 200,
          [DecodeOutcome.ok []]⟩
      = ⟨.ok ⟨"a", ((200 : Nat) : ℚ) / ((100 : Nat) : ℚ),
            generate_cache_key "a" 0 0⟩,
         (analyze_audio AudioProcessor.new
          ⟨"a", 0, 0, none, none, none, true, none, some 100, some 200,
            [DecodeOutcome.ok []]⟩).state, false⟩ :=
  have h1 : (analyze_audio AudioProcessor.new
      ⟨"a", 0, 0, none, none, none, true, none, some 100, some 200,
        [DecodeOutcome.ok []]⟩).result
      = .ok ⟨"a", ((200 : Nat) : ℚ) / ((100 : Nat) : ℚ),
          generate_cache_key "a" 0 0⟩ := rfl
  ⟨h1, analyze_audio_second_call_cached _ _ _ _ h1 rfl rfl rfl rfl⟩

/-! ## Claim C3 — failures during decoding abort without storing -/

/-- C3: when the call reaches the decode stage (metadata read, cache miss,
open, probe, track selection, decoder creation and codec parameters all
succeed) and the decode pipeline fails, `analyze_audio` returns that very
error, returns no summary, and leaves the processor state — in particular
the waveform cache — exactly as it was. -/
theorem decode_failure_aborts_and_preserves_cache (st : ProcState)
    (src : AudioSource) (sr nf : Nat) (err : AudioError)
    (hm : src.metaErr? = none)
    (hfind : findVal st.waveform_cache
        (generate_cache_key src.path src.mtime src.size) = none)
    (ho : src.openErr? = none) (hp : src.probeErr? = none)
    (ht : src.hasTrack = true) (hd : src.decoderErr? = none)
    (hsr : src.sampleRate? = some sr) (hnf : src.nFrames? = some nf)
    (hproc : process_audio_frames src.packets sr = .error err) :
    analyze_audio st src = ⟨.error err, st, true⟩ := by
  simp [analyze_audio, hm, hfind, ho, hp, ht, hd, hsr, hnf, hproc]

/-- C3 witness: a concrete call whose only packet fails to decode — the
call returns the decode error and the state is the untouched empty
processor state. -/
theorem decode_failure_aborts_and_preserves_cache_witness :
    (process_audio_frames [DecodeOutcome.err "bad"] 100
        = .error (.Symphonia "Decode error: bad")) ∧
    analyze_audio AudioProcessor.new
        ⟨"a", 0, 0, none, none, none, true, none, some 100, some 200,
          [DecodeOutcome.err "bad"]⟩
      = ⟨.error (.Symphonia "Decode error: bad"), AudioProcessor.new, true⟩ :=
  ⟨rfl, decode_failure_aborts_and_preserves_cache _ _ 100 200 _
    rfl rfl rfl rfl rfl rfl rfl rfl rfl⟩

/-! ## Claim C7 — missing codec parameters -/

/-- C7: when the call reaches the codec-parameter checks (cache miss and
all earlier stages succeed) and the selected track lacks a sample rate or
lacks a total frame count, `analyze_audio` fails with an
`InvalidAudioFile` error, no summary is computed (the pipeline never
runs) and nothing is stored (the state is unchanged). -/
theorem missing_codec_params_invalid_audio (st : ProcState)
    (src : AudioSource)
    (hm : src.metaErr? = none)
    (hfind : findVal st.waveform_cache
        (generate_cache_key src.path src.mtime src.size) = none)
    (ho : src.openErr? = none) (hp : src.probeErr? = none)
    (ht : src.hasTrack = true) (hd : src.decoderErr? = none)
    (hmiss : src.sampleRate? = none ∨ src.nFrames? = none) :
    ∃ msg, analyze_audio st src
        = ⟨.error (.InvalidAudioFile msg), st, false⟩ := by
  rcases hmiss with hsr | hnf
  · exact ⟨"Could not determine sample rate",
      by simp [analyze_audio, hm, hfind, ho, hp, ht, hd, hsr]⟩
  · cases hsr : src.sampleRate? with
    | none =>
        exact ⟨"Could not determine sample rate",
          by simp [analyze_audio, hm, hfind, ho, hp, ht, hd, hsr]⟩
    | some sr =>
        exact ⟨"Could not determine duration",
          by simp [analyze_audio, hm, hfind, ho, hp, ht, hd, hsr, hnf]⟩

/-- C7 witness: a concrete call whose track reports no sample rate. -/
theorem missing_codec_params_invalid_audio_witness :
    ((⟨"a", 0, 0, none, none, none, true, none, none, some 200,
        []⟩ : AudioSource).sampleRate? = none ∨
      (⟨"a", 0, 0, none, none, none, true, none, none, some 200,
        []⟩ : AudioSource).nFrames? = none) ∧
    ∃ msg, analyze_audio AudioProcessor.new
        ⟨"a", 0, 0, none, none, none, true, none, none, some 200, []⟩
      = ⟨.error (.InvalidAudioFile msg), AudioProcessor.new, false⟩ :=
  ⟨Or.inl rfl, missing_codec_params_invalid_audio _ _
    rfl rfl rfl rfl rfl rfl (Or.inl rfl)⟩

/-! ## Lemmas about sequential executions -/

/-- One operation never replaces or removes an existing waveform-cache
entry. -/
theorem stepOp_preserves_entry (st : ProcState) (op : Op) (k : String)
    (v : WaveformData) (h : findVal st.waveform_cache k = some v) :
    findVal (stepOp st op).waveform_cache k = some v := by
  cases op with
  | analyze src => exact analyze_audio_preserves_entry st src k v h
  | upload e src =>
    cases e with
    | none => exact analyze_audio_preserves_entry st src k v h
    | some m => exact h
  | getWaveform key => exact h
  | getPeaks key => exact h

/-- A whole sequential execution never replaces or removes an existing
waveform-cache entry. -/
theorem runOps_preserves_entry (ops : List Op) :
    ∀ (st : ProcState) (k : String) (v : WaveformData),
      findVal st.waveform_cache k = some v →
      findVal (runOps st ops).waveform_cache k = some v := by
  induction ops with
  | nil =>
    intro st k v h
    exact h
  | cons op ops ih =>
    intro st k v h
    exact ih (stepOp st op) k v (stepOp_preserves_entry st op k v h)

/-- No operation ever writes the secondary peak-only cache. -/
theorem stepOp_cache_field (st : ProcState) (op : Op) :
    (stepOp st op).cache = st.cache := by
  cases op with
  | analyze src => exact analyze_audio_cache_field st src
  | upload e src =>
    cases e with
    | none => exact analyze_audio_cache_field st src
    | some m => rfl
  | getWaveform key => rfl
  | getPeaks key => rfl

/-- A whole sequential execution leaves the secondary peak-only cache as
it started. -/
theorem runOps_cache_field (ops : List Op) :
    ∀ st : ProcState, (runOps st ops).cache = st.cache := by
  induction ops with
  | nil =>
    intro st
    rfl
  | cons op ops ih =>
    intro st
    rw [runOps, ih (stepOp st op), stepOp_cache_field]

/-! ## Claim C8 — stored summaries are permanent and immutable -/

/-- C8: once the waveform store maps a key to a summary, no sequential
execution of the public operations (`analyze_audio`, `process_upload`,
`get_waveform`, `get_peaks`) replaces or mutates it — every later lookup
of that key, in particular through `get_waveform`, returns the identical
summary. -/
theorem waveform_store_insert_permanent (st : ProcState) (ops : List Op)
    (k : String) (v : WaveformData)
    (h : findVal st.waveform_cache k = some v) :
    findVal (runOps st ops).waveform_cache k = some v ∧
    get_waveform (runOps st ops) k = .ok v := by
  have hrun := runOps_preserves_entry ops st k v h
  exact ⟨hrun, by simp [get_waveform, hrun]⟩

/-- C8 witness: a store holding one summary under key "k", run through an
upload, an analysis, and both reads — the entry survives unchanged. -/
theorem waveform_store_insert_permanent_witness :
    (findVal (ProcState.mk [] [("k", WaveformData.mk [] 1 44100)]).waveform_cache
        "k" = some (WaveformData.mk [] 1 44100)) ∧
    (findVal (runOps (ProcState.mk [] [("k", WaveformData.mk [] 1 44100)])
        [Op.upload none ⟨"b", 1, 2, none, none, none, true, none, some 100,
            some 300, [DecodeOutcome.ok []]⟩,
         Op.analyze ⟨"b", 1, 2, none, none, none, true, none, some 100,
            some 300, [DecodeOutcome.ok []]⟩,
         Op.getWaveform "k", Op.getPeaks "k"]).waveform_cache "k"
      = some (WaveformData.mk [] 1 44100)) ∧
    get_waveform (runOps (ProcState.mk [] [("k", WaveformData.mk [] 1 44100)])
        [Op.upload none ⟨"b", 1, 2, none, none, none, true, none, some 100,
            some 300, [DecodeOutcome.ok []]⟩,
         Op.analyze ⟨"b", 1, 2, none, none, none, true, none, some 100,
            some 300, [DecodeOutcome.ok []]⟩,
         Op.getWaveform "k", Op.getPeaks "k"]) "k"
      = .ok (WaveformData.mk [] 1 44100) :=
  have h : findVal
      (ProcState.mk [] [("k", WaveformData.mk [] 1 44100)]).waveform_cache "k"
      = some (WaveformData.mk [] 1 44100) := rfl
  have hmain := waveform_store_insert_permanent
    (ProcState.mk [] [("k", WaveformData.mk [] 1 44100)])
    [Op.upload none ⟨"b", 1, 2, none, none, none, true, none, some 100,
        some 300, [DecodeOutcome.ok []]⟩,
     Op.analyze ⟨"b", 1, 2, none, none, none, true, none, some 100,
        some 300, [DecodeOutcome.ok []]⟩,
     Op.getWaveform "k", Op.getPeaks "k"] "k" (WaveformData.mk [] 1 44100) h
  ⟨h, hmain.1, hmain.2⟩

/-! ## Claim C9 — not-found is a distinct error kind -/

/-- C9: `get_waveform` on a key with no stored summary (in particular a
key never inserted) returns the `Cache` ("not found") error, and that
error is a different `AudioError` variant from every probing or decoding
error kind (`Io`, `Symphonia`, `InvalidAudioFile`, `Processing`),
whatever their messages. -/
theorem get_waveform_not_found_distinct (st : ProcState) (key : String)
    (h : findVal st.waveform_cache key = none) :
    get_waveform st key = .error (.Cache "Waveform data not found in cache") ∧
    ∀ msg : String,
      AudioError.Cache "Waveform data not found in cache" ≠ .Io msg ∧
      AudioError.Cache "Waveform data not found in cache" ≠ .Symphonia msg ∧
      AudioError.Cache "Waveform data not found in cache"
        ≠ .InvalidAudioFile msg ∧
      AudioError.Cache "Waveform data not found in cache" ≠ .Processing msg := by
  refine ⟨by simp [get_waveform, h], ?_⟩
  intro msg
  refine ⟨?_, ?_, ?_, ?_⟩ <;> intro hcon <;> cases hcon

/-- C9 witness: the freshly created processor with a never-inserted key. -/
theorem get_waveform_not_found_distinct_witness :
    (findVal AudioProcessor.new.waveform_cache "missing" = none) ∧
    get_waveform AudioProcessor.new "missing"
      = .error (.Cache "Waveform data not found in cache") ∧
    ∀ msg : String,
      AudioError.Cache "Waveform data not found in cache" ≠ .Io msg ∧
      AudioError.Cache "Waveform data not found in cache" ≠ .Symphonia msg ∧
      AudioError.Cache "Waveform data not found in cache"
        ≠ .InvalidAudioFile msg ∧
      AudioError.Cache "Waveform data not found in cache" ≠ .Processing msg :=
  have hm := get_waveform_not_found_distinct AudioProcessor.new "missing" rfl
  ⟨rfl, hm.1, hm.2⟩

/-! ## Claim C10 — the secondary peak cache is never populated -/

/-- C10: starting from the freshly created processor, no sequence of
public operations ever inserts into the secondary peak-only cache — it
stays empty, so `get_peaks` answers every key with the not-found `Cache`
error. -/
theorem peak_cache_stays_empty (ops : List Op) (k : String) :
    (runOps AudioProcessor.new ops).cache = [] ∧
    get_peaks (runOps AudioProcessor.new ops) k
      = .error (.Cache "Peak data not found in cache") := by
  have h : (runOps AudioProcessor.new ops).cache = [] :=
    runOps_cache_field ops AudioProcessor.new
  exact ⟨h, by simp [get_peaks, h, findVal]⟩
